import Mathlib

/-!
Verification of the AutoMix engine of the monochrome-plus player
(`src/js/automix-howler.js`).  JavaScript numbers are modelled as exact
rationals (ℚ) except for the trigonometric crossfade curves, which are
modelled over ℝ.  JS `Map`s are modelled as insertion-ordered association
lists, and JS strings as Lean `String`s (with the character-level
operations done on `String.toList`).
-/

/-! ## Camelot wheel, first implementation (`CamelotWheel`, lines 244-365) -/

namespace CamelotWheel

/-- The `keyToCamelot` object literal: key name → Camelot code. -/
def keyToCamelot : String → Option String
  | "A-" => some "01A"
  | "Bb" => some "02A"
  | "B-" => some "03A"
  | "C-" => some "04A"
  | "C#" => some "05A"
  | "D-" => some "06A"
  | "D#" => some "07A"
  | "E-" => some "08A"
  | "F-" => some "09A"
  | "F#" => some "10A"
  | "G-" => some "11A"
  | "Ab" => some "12A"
  | "Am" => some "01B"
  | "Bbm" => some "02B"
  | "Bm" => some "03B"
  | "Cm" => some "04B"
  | "C#m" => some "05B"
  | "Dm" => some "06B"
  | "D#m" => some "07B"
  | "Em" => some "08B"
  | "Fm" => some "09B"
  | "F#m" => some "10B"
  | "Gm" => some "11B"
  | "G#m" => some "12B"
  | _ => none

/-- The 24 keys defined in `keyToCamelot`. -/
def wheelKeys : List String :=
  ["A-", "Bb", "B-", "C-", "C#", "D-", "D#", "E-", "F-", "F#", "G-", "Ab",
   "Am", "Bbm", "Bm", "Cm", "C#m", "Dm", "D#m", "Em", "Fm", "F#m", "Gm", "G#m"]

/-- Value of a decimal digit character (embeds the digit handling of JS
`parseInt`; camelot codes always start with two decimal digits). -/
def digitVal (c : Char) : ℕ := c.toNat - 48

/-- `parseInt(camelotNumber.slice(0, 2))` for a two-digit-prefixed code. -/
def parseNum2 (s : List Char) : ℕ :=
  match s with
  | d1 :: d2 :: _ => digitVal d1 * 10 + digitVal d2
  | [d1] => digitVal d1
  | [] => 0

/-- `String(num).padStart(2, '0')` as a character list, for `num < 100`
(every wheel number handled by the source is between 1 and 12). -/
def pad2 (n : ℕ) : List Char :=
  if n < 10 then ['0', Nat.digitChar n]
  else [Nat.digitChar (n / 10 % 10), Nat.digitChar (n % 10)]

/-- `CamelotWheel.getCompatibleKeys` (lines 303-325): the four candidate
codes (same number, +1, -1, relative mode), deduplicated as
`[...new Set(compatible)]` does. -/
def getCompatibleKeys (camelotNumber : List Char) : List (List Char) :=
  let num := parseNum2 camelotNumber
  let letter := camelotNumber.drop 2
  let plus1 := if num = 12 then 1 else num + 1
  let minus1 := if num = 1 then 12 else num - 1
  let otherMode : List Char := if letter = ['A'] then ['B'] else ['A']
  ([pad2 num ++ letter, pad2 plus1 ++ letter, pad2 minus1 ++ letter,
    pad2 num ++ otherMode]).dedup

/-- `CamelotWheel.isCompatible` (lines 330-338).  An unknown key falls back
to the raw key string (`keyToCamelot[key1] || key1`); the falsy guard
`!camelot1 || !camelot2` only fires on the empty string. -/
def isCompatible (key1 key2 : String) : Bool :=
  let camelot1 := ((keyToCamelot key1).getD key1).toList
  let camelot2 := ((keyToCamelot key2).getD key2).toList
  if camelot1 = [] ∨ camelot2 = [] then false
  else (getCompatibleKeys camelot1).contains camelot2

end CamelotWheel

/-! ## Camelot wheel, second implementation (`CAMELOT_WHEEL` /
`checkKeyCompatibility`, lines 1037-1109) -/

/-- One entry of the `CAMELOT_WHEEL` table. -/
structure CamelotKey where
  number : ℕ
  letter : Char
  name : String
deriving DecidableEq, Repr

/-- The `CAMELOT_WHEEL` object literal (lines 1037-1064). -/
def CAMELOT_WHEEL : String → Option CamelotKey
  | "C" => some ⟨8, 'B', "C Major"⟩
  | "G" => some ⟨9, 'B', "G Major"⟩
  | "D" => some ⟨10, 'B', "D Major"⟩
  | "A" => some ⟨11, 'B', "A Major"⟩
  | "E" => some ⟨12, 'B', "E Major"⟩
  | "B" => some ⟨1, 'B', "B Major"⟩
  | "F#" => some ⟨2, 'B', "F# Major"⟩
  | "Db" => some ⟨3, 'B', "Db Major"⟩
  | "Ab" => some ⟨4, 'B', "Ab Major"⟩
  | "Eb" => some ⟨5, 'B', "Eb Major"⟩
  | "Bb" => some ⟨6, 'B', "Bb Major"⟩
  | "F" => some ⟨7, 'B', "F Major"⟩
  | "Am" => some ⟨8, 'A', "A Minor"⟩
  | "Em" => some ⟨9, 'A', "E Minor"⟩
  | "Bm" => some ⟨10, 'A', "B Minor"⟩
  | "F#m" => some ⟨11, 'A', "F# Minor"⟩
  | "C#m" => some ⟨12, 'A', "C# Minor"⟩
  | "G#m" => some ⟨1, 'A', "G# Minor"⟩
  | "Ebm" => some ⟨2, 'A', "Eb Minor"⟩
  | "Bbm" => some ⟨3, 'A', "Bb Minor"⟩
  | "Fm" => some ⟨4, 'A', "F Minor"⟩
  | "Cm" => some ⟨5, 'A', "C Minor"⟩
  | "Gm" => some ⟨6, 'A', "G Minor"⟩
  | "Dm" => some ⟨7, 'A', "D Minor"⟩
  | _ => none

/-- The 24 keys defined in `CAMELOT_WHEEL`. -/
def camelotKeys : List String :=
  ["C", "G", "D", "A", "E", "B", "F#", "Db", "Ab", "Eb", "Bb", "F",
   "Am", "Em", "Bm", "F#m", "C#m", "G#m", "Ebm", "Bbm", "Fm", "Cm", "Gm", "Dm"]

/-- Result object of `checkKeyCompatibility`; `distance: null` is `none`. -/
structure CompatResult where
  compatible : Bool
  distance : Option ℕ
  reason : String
deriving DecidableEq, Repr

/-- `Math.min(numDiff, 12 - numDiff)` with `numDiff = Math.abs(a - b)`. -/
def circularDiff (a b : ℕ) : ℕ :=
  let numDiff := ((a : ℤ) - (b : ℤ)).natAbs
  min numDiff (12 - numDiff)

/-- `checkKeyCompatibility` (lines 1072-1109). -/
def checkKeyCompatibility (key1 key2 : String) : CompatResult :=
  match CAMELOT_WHEEL key1, CAMELOT_WHEEL key2 with
  | some k1, some k2 =>
    if key1 = key2 then ⟨true, some 0, "Same key"⟩
    else if k1.number = k2.number then ⟨true, some 1, "Relative major/minor"⟩
    else
      let cd := circularDiff k1.number k2.number
      if cd = 1 then ⟨true, some 2, "Adjacent on Camelot wheel"⟩
      else if cd = 2 then ⟨true, some 3, "Energy boost zone"⟩
      else if k1.letter = k2.letter ∧ cd ≤ 3 then ⟨true, some 3, "Same mode"⟩
      else ⟨false, some cd, "Dissonant"⟩
  | _, _ => ⟨false, none, "Unknown key"⟩

/-- Wheel number of a defined key (0 for an unknown key); used only to
state properties about keys of `camelotKeys`, where it is always defined. -/
def camelotNumberOf (key : String) : ℕ :=
  match CAMELOT_WHEEL key with
  | some k => k.number
  | none => 0

/-! ## Shared analysis data model -/

/-- A detected beat: `{time, energy, strength}` (line 124-128). -/
structure Beat where
  time : ℚ
  energy : ℚ
  strength : ℚ
deriving DecidableEq, Repr

/-- One energy-envelope entry of `AudioAnalyzer.analyze`:
`{time, energy, flux}` (lines 49-53). -/
structure EnergyFrame where
  time : ℚ
  energy : ℚ
  flux : ℚ
deriving DecidableEq, Repr

/-- One envelope entry of `analyzeTrackWaveform`: `{time, rms}`
(lines 1294-1297). -/
structure RmsFrame where
  time : ℚ
  rms : ℚ
deriving DecidableEq, Repr

/-! ## Transition planners (claims C3, C6) -/

/-- The fields of `AutoMixEngineHowler.options` read by
`_calculateTransitionTiming` (constructor lines 372-382; defaults
`crossfadeDuration = 16`, `tempoMatch = true`, `transitionOverlap = 0.95`). -/
structure HowlerOptions where
  crossfadeDuration : ℚ
  tempoMatch : Bool
  transitionOverlap : ℚ
deriving DecidableEq, Repr

/-- The fields of a track analysis read by
`AutoMixEngineHowler._calculateTransitionTiming`. -/
structure HAnalysis where
  duration : ℚ
  tempo : ℚ
  beats : List Beat
deriving DecidableEq, Repr

/-- The plan returned by `AutoMixEngineHowler._calculateTransitionTiming`;
the field `rate` embeds the source's `tempoRatio`. -/
structure HowlerTiming where
  currentOut : ℚ
  nextIn : ℚ
  duration : ℚ
  rate : ℚ
deriving DecidableEq, Repr

/-- `AutoMixEngineHowler._calculateTransitionTiming` (lines 576-633).
`howlDuration` is `this.currentHowl.duration()`; the two `Option`
arguments are `this.currentAnalysis` / `this.nextAnalysis`. -/
def howlerCalcTransitionTiming (opts : HowlerOptions) (howlDuration : ℚ)
    (currentAnalysis nextAnalysis : Option HAnalysis) : HowlerTiming :=
  match currentAnalysis, nextAnalysis with
  | some cur, some nxt =>
    let mixOut0 := cur.duration * opts.transitionOverlap
    let mixOut :=
      if cur.beats.length > 0 then
        let beatsBeforeTarget := cur.beats.filter (fun b => decide (b.time ≤ mixOut0))
        if beatsBeforeTarget.length > 0 then
          ((beatsBeforeTarget.getLast?).getD ⟨mixOut0, 0, 0⟩).time
        else mixOut0
      else mixOut0
    let mixIn :=
      if nxt.beats.length > 0 then
        match nxt.beats.find? (fun b => decide (b.strength > 1/2)) with
        | some firstStrongBeat =>
          if firstStrongBeat.time < 5 then firstStrongBeat.time else 0
        | none => 0
      else 0
    let rate :=
      if opts.tempoMatch = true ∧ cur.tempo > 0 ∧ nxt.tempo > 0 then
        let r := cur.tempo / nxt.tempo
        if 9/10 ≤ r ∧ r ≤ 11/10 then r else 1
      else 1
    ⟨mixOut, mixIn, opts.crossfadeDuration, rate⟩
  | _, _ =>
    ⟨howlDuration * opts.transitionOverlap, 0, opts.crossfadeDuration, 1⟩

/-- The fields of `AutoMixEngine.options` read by
`calculateTransitionTiming` (constructor lines 1411-1420; defaults
`crossfadeDuration = 12`, `outroTrimEnabled = true`). -/
structure EngineOptions where
  crossfadeDuration : ℚ
  outroTrimEnabled : Bool
deriving DecidableEq, Repr

/-- The fields of an `analyzeTrackWaveform` result read by
`AutoMixEngine.calculateTransitionTiming`. -/
structure WaveformAnalysis where
  duration : ℚ
  outroTrimPoint : ℚ
deriving DecidableEq, Repr

/-- The plan returned by `AutoMixEngine.calculateTransitionTiming`. -/
structure EngineTiming where
  mixOutPoint : ℚ
  mixInPoint : ℚ
  duration : ℚ
deriving DecidableEq, Repr

/-- `AutoMixEngine.calculateTransitionTiming` (lines 1474-1498).  The JS
truthiness test `currentAnalysis.outroTrimPoint` is `outroTrimPoint ≠ 0`. -/
def engineCalcTransitionTiming (opts : EngineOptions)
    (currentAnalysis : WaveformAnalysis) : EngineTiming :=
  let crossfadeDuration := opts.crossfadeDuration
  let mixOut0 := currentAnalysis.duration - crossfadeDuration
  let mixOut1 :=
    if opts.outroTrimEnabled = true ∧ currentAnalysis.outroTrimPoint ≠ 0 then
      if currentAnalysis.duration - currentAnalysis.outroTrimPoint > 3 then
        currentAnalysis.outroTrimPoint - crossfadeDuration
      else mixOut0
    else mixOut0
  ⟨max mixOut1 crossfadeDuration, 0, crossfadeDuration⟩

/-! ## Bounded caches (claim C5).  A JS `Map` is an insertion-ordered
association list; track ids are modelled as naturals. -/

/-- `Map.prototype.set`: update in place if the key exists (keeping its
insertion position), otherwise append. -/
def jsMapSet {α : Type} (m : List (ℕ × α)) (k : ℕ) (v : α) : List (ℕ × α) :=
  if m.any (fun p => p.1 == k) then
    m.map (fun p => if p.1 == k then (k, v) else p)
  else m ++ [(k, v)]

/-- `this.maxCacheSize` of `AutoMixEngineHowler` (line 386). -/
def maxCacheSize : ℕ := 30

/-- `this.maxCacheSize` of `AudioAnalyzer` (line 16) — declared as the
analysis-cache cap but never enforced anywhere. -/
def analyzerMaxCacheSize : ℕ := 50

/-- `AutoMixEngineHowler._addToCache` (lines 509-515): if the cache is at
capacity, delete the first (oldest-inserted) key, then insert. -/
def addToCache {α : Type} (trackCache : List (ℕ × α)) (trackId : ℕ) (data : α) :
    List (ℕ × α) :=
  let trackCache := if trackCache.length ≥ maxCacheSize then trackCache.drop 1
    else trackCache
  jsMapSet trackCache trackId data

/-- The cache mutation performed by `AutoMixEngine.getTrackAnalysis`
(lines 1608-1619) for a successful analysis: return the cache unchanged if
the id is present, otherwise `analysisCache.set(trackId, analysis)` — with
no eviction of any kind. -/
def getTrackAnalysisCacheStep {α : Type} (analysisCache : List (ℕ × α))
    (trackId : ℕ) (analysis : α) : List (ℕ × α) :=
  if analysisCache.any (fun p => p.1 == trackId) then analysisCache
  else jsMapSet analysisCache trackId analysis

/-- Folding a list of distinct track ids into the track cache. -/
def trackCacheAfter (ks : List ℕ) : List (ℕ × Unit) :=
  ks.foldl (fun c k => addToCache c k ()) []

/-- Folding a list of distinct track ids into the analysis cache. -/
def analysisCacheAfter (ks : List ℕ) : List (ℕ × Unit) :=
  ks.foldl (fun c k => getTrackAnalysisCacheStep c k ()) []

/-- The sliding window of the last `maxCacheSize` inserted keys. -/
def evictWindow (ks : List ℕ) : List (ℕ × Unit) :=
  (ks.drop (ks.length - maxCacheSize)).map (fun k => (k, ()))

/-! ## Beat detection (claim C4) -/

/-- `AudioAnalyzer._calculateAdaptiveThreshold` (lines 135-147):
`1.5 × mean(flux in a ±10-sample window)`; the `start`/`end` clamping of
the source is `Math.max(0, i-10)` (truncated ℕ subtraction here) and
`Math.min(length, i+10)`. -/
def calculateAdaptiveThreshold (fluxValues : List ℚ) : List ℚ :=
  (List.range fluxValues.length).map fun i =>
    let start := i - 10
    let stop := min fluxValues.length (i + 10)
    let localMean := ((fluxValues.drop start).take (stop - start)).sum /
      ((stop - start : ℕ) : ℚ)
    localMean * (3/2)

/-- `AudioAnalyzer._detectBeatsAdvanced` (lines 114-133): indices
`1 ≤ i < length - 1` whose flux exceeds the local adaptive threshold and is
a strict local peak become beats carrying the envelope entry's time and
energy and the flux as strength. -/
def detectBeatsAdvanced (energyEnvelope : List EnergyFrame) (fluxValues : List ℚ) :
    List Beat :=
  let threshold := calculateAdaptiveThreshold fluxValues
  ((List.range fluxValues.length).filter fun i =>
      decide (1 ≤ i ∧ i + 1 < fluxValues.length ∧
        fluxValues.getD i 0 > threshold.getD i 0 ∧
        fluxValues.getD i 0 > fluxValues.getD (i - 1) 0 ∧
        fluxValues.getD i 0 > fluxValues.getD (i + 1) 0)).map fun i =>
    ⟨(energyEnvelope.getD i ⟨0, 0, 0⟩).time,
     (energyEnvelope.getD i ⟨0, 0, 0⟩).energy,
     fluxValues.getD i 0⟩

/-- `minBeatInterval` of `detectBeats` (line 1344): 300 ms. -/
def minBeatInterval : ℚ := 3/10

/-- One iteration of the `detectBeats` loop body (lines 1348-1365); the
state is `(lastBeatTime, beats)`. -/
def detectBeatsStep (energyEnvelope : List RmsFrame) (st : ℚ × List ℚ) (i : ℕ) :
    ℚ × List ℚ :=
  let current := energyEnvelope.getD i ⟨0, 0⟩
  let prev := energyEnvelope.getD (i - 1) ⟨0, 0⟩
  let next := energyEnvelope.getD (i + 1) ⟨0, 0⟩
  if current.rms > prev.rms ∧ current.rms > next.rms then
    if current.time - st.1 ≥ minBeatInterval then
      let localAvg := (prev.rms + next.rms) / 2
      if current.rms > localAvg * (12/10) then (current.time, st.2 ++ [current.time])
      else st
    else st
  else st

/-- `detectBeats` (lines 1342-1368): loop over indices `2 ≤ i < length - 2`
with initial state `lastBeatTime = 0`, returning the accumulated beat
times.  (`framesPerSecond` is a parameter of the source that its body
never reads.) -/
def detectBeats (energyEnvelope : List RmsFrame) (framesPerSecond : ℚ) : List ℚ :=
  (((List.range energyEnvelope.length).filter fun i =>
      decide (2 ≤ i ∧ i + 2 < energyEnvelope.length)).foldl
    (detectBeatsStep energyEnvelope) (0, [])).2

/-- Invariant of the `detectBeats` loop: the accumulated beat times are
spaced by at least `minBeatInterval` and the last of them is
`lastBeatTime`. -/
def BeatsChainInv (st : ℚ × List ℚ) : Prop :=
  List.Chain' (fun t1 t2 => t1 + minBeatInterval ≤ t2) st.2 ∧
  ∀ x ∈ st.2.getLast?, x = st.1

/-! ## Tempo estimation (claim C7) -/

/-- The inter-beat interval loop of `_calculateTempo` (lines 152-155):
`beats[i].time - beats[i-1].time` for `i = 1 … length-1`. -/
def intervalsAux : List ℚ → List ℚ
  | a :: b :: rest => (b - a) :: intervalsAux (b :: rest)
  | _ => []

/-- JS `Math.round`: round half towards positive infinity. -/
def jsRound (x : ℚ) : ℤ := ⌊x + 1/2⌋

/-- `Math.round(interval * 10) / 10` (line 160). -/
def round01 (x : ℚ) : ℚ := (jsRound (x * 10) : ℚ) / 10

/-- `histogram.set(rounded, (histogram.get(rounded) || 0) + 1)` on an
insertion-ordered map (line 161). -/
def histAdd (h : List (ℚ × ℕ)) (x : ℚ) : List (ℚ × ℕ) :=
  if h.any (fun p => decide (p.1 = x)) then
    h.map (fun p => if p.1 = x then (p.1, p.2 + 1) else p)
  else h ++ [(x, 1)]

/-- `AudioAnalyzer._calculateTempo` (lines 149-174): inter-beat intervals,
rounded to 0.1 s, histogrammed; the mode (first key reaching the maximal
count, in insertion order) gives `60 / commonInterval`; 0 when fewer than
two beats or when the mode interval is not positive. -/
def calculateTempo (beats : List Beat) : ℚ :=
  if beats.length < 2 then 0
  else
    let intervals := intervalsAux (beats.map (fun b => b.time))
    let histogram := intervals.foldl (fun h interval => histAdd h (round01 interval)) []
    let mode := histogram.foldl
      (fun (acc : ℕ × ℚ) p => if p.2 > acc.1 then (p.2, p.1) else acc) (0, 0)
    if mode.2 > 0 then 60 / mode.2 else 0

/-! ## Crossfade curves (claim C8).  The scheduled gains of
`_executeCrossfade` (lines 707-726) as functions of the normalized time
`t = i / steps ∈ [0, 1]`; JS `Math.cos`/`Math.sin` are modelled over ℝ. -/

/-- `Math.cos((t * Math.PI) / 2)` (line 712). -/
noncomputable def crossfadeFadeOut (t : ℝ) : ℝ := Real.cos (t * Real.pi / 2)

/-- `Math.sin((t * Math.PI) / 2)` (line 713). -/
noncomputable def crossfadeFadeIn (t : ℝ) : ℝ := Real.sin (t * Real.pi / 2)

/-- `Math.max(0.001, fadeOut)` — the gain scheduled on the outgoing path
(line 716; at `i = 0` the source sets 1, which equals this value at
`t = 0`). -/
noncomputable def crossfadeCurrentValue (t : ℝ) : ℝ := max 0.001 (crossfadeFadeOut t)

/-- `Math.max(0.001, fadeIn)` — the gain scheduled on the incoming path
(line 717; at `i = 0` the source sets 0.001, which equals this value at
`t = 0`). -/
noncomputable def crossfadeNextValue (t : ℝ) : ℝ := max 0.001 (crossfadeFadeIn t)

/-! ## The `analyze` beat/tempo pipeline (claim C9).  The spectral
transform `this._fft` is passed as an explicit function parameter `fft`:
the claim's conclusion holds for every deterministic transform, so nothing
about the transform itself needs to be assumed. -/

/-- `Math.floor(sampleRate * 0.05)` — the 50 ms hop (line 28). -/
def analyzeHopSize (sampleRate : ℕ) : ℕ := sampleRate * 5 / 100

/-- `Math.floor(sampleRate * 0.1)` — the 100 ms window (line 29). -/
def analyzeWindowSize (sampleRate : ℕ) : ℕ := sampleRate * 10 / 100

/-- The indices visited by the loop
`for (i = 0; i + windowSize < length && i < sampleRate * 30; i += hopSize)`
(line 36).  Both loop conditions are downward closed in `i`, and for
`hopSize ≥ 1` every visited index `k·hopSize` satisfies `k ≤ i < cap`, so
filtering the first `cap` multiples of the hop reproduces the visited
index sequence. -/
def analyzeWindowStarts (len windowSize hopSize cap : ℕ) : List ℕ :=
  ((List.range cap).map (fun k => k * hopSize)).filter
    (fun i => decide (i + windowSize < len ∧ i < cap))

/-- The spectral-flux accumulation of lines 41-47: the sum of positive
differences between a spectrum and the previous one.  When the previous
spectrum is shorter, the JS subtraction `spectrum[j] - previousSpectrum[j]`
yields `NaN`, which fails the `diff > 0` test and contributes 0 — modelled
by the `none` branch. -/
def spectralFlux (spectrum previousSpectrum : List ℚ) : ℚ :=
  (List.range spectrum.length).foldl
    (fun flux j =>
      match previousSpectrum[j]? with
      | some pv =>
        let diff := spectrum.getD j 0 - pv
        flux + (if diff > 0 then diff else 0)
      | none => flux)
    0

/-- One iteration of the analysis loop body (lines 36-57): slice the
window, compute its spectrum, its energy (mean squared magnitude — line
111) and its flux, and push the envelope entry and flux value.  The state
is `(previousSpectrum, energyEnvelope, fluxValues)`. -/
def analyzeStep (fft : List ℚ → List ℚ) (channelData : List ℚ) (sampleRate : ℕ)
    (st : Option (List ℚ) × List EnergyFrame × List ℚ) (i : ℕ) :
    Option (List ℚ) × List EnergyFrame × List ℚ :=
  let window := (channelData.drop i).take (analyzeWindowSize sampleRate)
  let spectrum := fft window
  let energy := (spectrum.foldl (fun sum val => sum + val * val) 0) /
    (spectrum.length : ℚ)
  let flux := match st.1 with
    | some previousSpectrum => spectralFlux spectrum previousSpectrum
    | none => 0
  (some spectrum,
   st.2.1 ++ [⟨(i : ℚ) / (sampleRate : ℚ), energy, flux⟩],
   st.2.2 ++ [flux])

/-- The envelope/flux part of `AudioAnalyzer.analyze` (lines 22-57). -/
def analyzeEnvelopeFlux (fft : List ℚ → List ℚ) (channelData : List ℚ)
    (sampleRate : ℕ) : List EnergyFrame × List ℚ :=
  let starts := analyzeWindowStarts channelData.length
    (analyzeWindowSize sampleRate) (analyzeHopSize sampleRate) (sampleRate * 30)
  let r := starts.foldl (analyzeStep fft channelData sampleRate) (none, [], [])
  (r.2.1, r.2.2)

/-- The beat/tempo projection of `AudioAnalyzer.analyze` (lines 60-63):
`beats = _detectBeatsAdvanced(energyEnvelope, fluxValues)` and
`tempo = _calculateTempo(beats)`. -/
def analyzerAnalyze (fft : List ℚ → List ℚ) (channelData : List ℚ)
    (sampleRate : ℕ) : List Beat × ℚ :=
  let er := analyzeEnvelopeFlux fft channelData sampleRate
  let beats := detectBeatsAdvanced er.1 er.2
  (beats, calculateTempo beats)

/-! ## Theorems -/

/-- Claim C1 (theorem): key compatibility is symmetric on each
implementation's 24 defined keys: `CamelotWheel.isCompatible` returns the
same Boolean for `(a, b)` and `(b, a)`, and `checkKeyCompatibility`
returns the same full result object for `(a, b)` and `(b, a)`. -/
theorem camelot_compatibility_symmetric :
    (∀ a ∈ CamelotWheel.wheelKeys, ∀ b ∈ CamelotWheel.wheelKeys,
      CamelotWheel.isCompatible a b = CamelotWheel.isCompatible b a) ∧
    (∀ a ∈ camelotKeys, ∀ b ∈ camelotKeys,
      checkKeyCompatibility a b = checkKeyCompatibility b a) := by
  constructor
  · decide
  · decide

/-- Claim C1 (witness): the symmetry theorem applied to concrete keys. -/
theorem camelot_compatibility_symmetric_witness :
    CamelotWheel.isCompatible "Am" "Bbm" = CamelotWheel.isCompatible "Bbm" "Am" ∧
    checkKeyCompatibility "Am" "C" = checkKeyCompatibility "C" "Am" :=
  ⟨camelot_compatibility_symmetric.1 "Am" (by decide) "Bbm" (by decide),
   camelot_compatibility_symmetric.2 "Am" (by decide) "C" (by decide)⟩

/-- Claim C2 (counterexample): the claim asserts
`isCompatible('Am','C') == true` for both implementations, but
`CamelotWheel.isCompatible "Am" "C"` is `false`: the string `'C'` is not a
key of `keyToCamelot` (C major is spelled `'C-'` there), so it falls back
to the raw string `'C'`, which matches no Camelot code. -/
theorem camelot_am_c_false_in_wheel :
    CamelotWheel.isCompatible "Am" "C" = false := by decide

/-- Claim C2 (amended theorem): `checkKeyCompatibility` returns true for
`('Am','C')` (relative major/minor) and false for `('Am','F#')`;
`CamelotWheel.isCompatible` returns false for `('Am','F#')` but also false
for `('Am','C')`, because `'C'` is not among its defined key spellings. -/
theorem camelot_known_compatibility_facts :
    (checkKeyCompatibility "Am" "C").compatible = true ∧
    (checkKeyCompatibility "Am" "F#").compatible = false ∧
    CamelotWheel.isCompatible "Am" "C" = false ∧
    CamelotWheel.isCompatible "Am" "F#" = false := by decide

/-- Claim C10 (theorem): every pair of defined keys whose circular Camelot
distance is exactly 2 is reported compatible by `checkKeyCompatibility`
with reason `'Energy boost zone'` and distance 3, regardless of the two
keys' modes (letters). -/
theorem energy_boost_zone_rule :
    ∀ k1 ∈ camelotKeys, ∀ k2 ∈ camelotKeys,
      circularDiff (camelotNumberOf k1) (camelotNumberOf k2) = 2 →
      checkKeyCompatibility k1 k2 = ⟨true, some 3, "Energy boost zone"⟩ := by
  decide

/-- Claim C10 (witness): `'Am'` (8A, minor) and `'D'` (10B, major) are two
steps apart across modes and are accepted as an energy boost. -/
theorem energy_boost_zone_rule_witness :
    checkKeyCompatibility "Am" "D" = ⟨true, some 3, "Energy boost zone"⟩ :=
  energy_boost_zone_rule "Am" (by decide) "D" (by decide) (by decide)

/-- Claim C3 (counterexample): the claim says every plan of both planners
has its mix-out point at least one crossfade length in; but
`AutoMixEngineHowler._calculateTransitionTiming` never clamps: with the
default options (16 s crossfade, 0.95 overlap) and a 10-second track it
returns `currentOut = 9.5 < 16 = duration`. -/
theorem howler_mixout_not_clamped :
    ¬ ((howlerCalcTransitionTiming ⟨16, true, 19/20⟩ 10
          (some ⟨10, 0, []⟩) (some ⟨10, 0, []⟩)).currentOut ≥
       (howlerCalcTransitionTiming ⟨16, true, 19/20⟩ 10
          (some ⟨10, 0, []⟩) (some ⟨10, 0, []⟩)).duration) := by
  norm_num [howlerCalcTransitionTiming]

/-- Claim C3 (amended theorem): both planners set the plan's crossfade
duration to the policy's `crossfadeDuration`; `AutoMixEngine.
calculateTransitionTiming` additionally clamps its `mixOutPoint` to at
least that duration, but `AutoMixEngineHowler._calculateTransitionTiming`
performs no such clamp (its `currentOut` can be smaller, see the
counterexample). -/
theorem transition_timing_duration_and_clamp :
    (∀ (opts : EngineOptions) (cur : WaveformAnalysis),
      (engineCalcTransitionTiming opts cur).duration = opts.crossfadeDuration ∧
      (engineCalcTransitionTiming opts cur).mixOutPoint ≥ opts.crossfadeDuration) ∧
    (∀ (opts : HowlerOptions) (howlDuration : ℚ)
       (ca na : Option HAnalysis),
      (howlerCalcTransitionTiming opts howlDuration ca na).duration =
        opts.crossfadeDuration) := by
  constructor
  · intro opts cur
    exact ⟨rfl, le_max_right _ _⟩
  · intro opts howlDuration ca na
    cases ca <;> cases na <;> rfl

/-- Claim C6 (theorem): with tempo matching enabled (the default), the
planner's tempo ratio (`rate` field) is 1 unless both tempos are positive
and `current.tempo / next.tempo` lies in `[0.9, 1.1]`, in which case that
ratio itself is used; in particular tempos (100, 140) give 1 and tempos
(120, 126) give `120/126 = 20/21 ≈ 0.952`. -/
theorem tempo_ratio_clamp (opts : HowlerOptions) (howlDuration : ℚ)
    (ca na : HAnalysis) (htm : opts.tempoMatch = true) :
    (¬ (0 < ca.tempo ∧ 0 < na.tempo ∧
        9/10 ≤ ca.tempo / na.tempo ∧ ca.tempo / na.tempo ≤ 11/10) →
      (howlerCalcTransitionTiming opts howlDuration (some ca) (some na)).rate = 1) ∧
    ((0 < ca.tempo ∧ 0 < na.tempo ∧
        9/10 ≤ ca.tempo / na.tempo ∧ ca.tempo / na.tempo ≤ 11/10) →
      (howlerCalcTransitionTiming opts howlDuration (some ca) (some na)).rate =
        ca.tempo / na.tempo) ∧
    (ca.tempo = 100 → na.tempo = 140 →
      (howlerCalcTransitionTiming opts howlDuration (some ca) (some na)).rate = 1) ∧
    (ca.tempo = 120 → na.tempo = 126 →
      (howlerCalcTransitionTiming opts howlDuration (some ca) (some na)).rate = 20/21) := by
  have hrate : (howlerCalcTransitionTiming opts howlDuration (some ca) (some na)).rate =
      if opts.tempoMatch = true ∧ ca.tempo > 0 ∧ na.tempo > 0 then
        if 9/10 ≤ ca.tempo / na.tempo ∧ ca.tempo / na.tempo ≤ 11/10 then
          ca.tempo / na.tempo
        else 1
      else 1 := rfl
  refine ⟨?_, ?_, ?_, ?_⟩
  · intro h
    rw [hrate]
    by_cases h1 : 0 < ca.tempo ∧ 0 < na.tempo
    · have h2 : ¬ (9/10 ≤ ca.tempo / na.tempo ∧ ca.tempo / na.tempo ≤ 11/10) := by
        intro hr
        exact h ⟨h1.1, h1.2, hr.1, hr.2⟩
      rw [if_pos ⟨htm, h1.1, h1.2⟩, if_neg h2]
    · rw [if_neg]
      intro hc
      exact h1 ⟨hc.2.1, hc.2.2⟩
  · intro h
    rw [hrate, if_pos ⟨htm, h.1, h.2.1⟩, if_pos ⟨h.2.2.1, h.2.2.2⟩]
  · intro h100 h140
    rw [hrate, h100, h140]
    norm_num
  · intro h120 h126
    rw [hrate, h120, h126, htm]
    norm_num

/-- Claim C6 (witness): tempos (120, 126) at the default options yield the
ratio `20/21`, and tempos (100, 140) yield 1. -/
theorem tempo_ratio_clamp_witness :
    (howlerCalcTransitionTiming ⟨16, true, 19/20⟩ 0
        (some ⟨200, 120, []⟩) (some ⟨180, 126, []⟩)).rate = 20/21 ∧
    (howlerCalcTransitionTiming ⟨16, true, 19/20⟩ 0
        (some ⟨200, 100, []⟩) (some ⟨180, 140, []⟩)).rate = 1 :=
  ⟨(tempo_ratio_clamp ⟨16, true, 19/20⟩ 0 ⟨200, 120, []⟩ ⟨180, 126, []⟩ rfl).2.2.2
      rfl rfl,
   (tempo_ratio_clamp ⟨16, true, 19/20⟩ 0 ⟨200, 100, []⟩ ⟨180, 140, []⟩ rfl).2.2.1
      rfl rfl⟩

theorem evictWindow_keys_mem {ks : List ℕ} {p : ℕ × Unit}
    (hp : p ∈ evictWindow ks) : p.1 ∈ ks := by
  rcases List.mem_map.mp hp with ⟨k, hk, rfl⟩
  exact List.mem_of_mem_drop hk

/-- Auxiliary: a fresh key is appended by `Map.set`. -/
theorem jsMapSet_fresh {m : List (ℕ × Unit)} {k : ℕ}
    (h : ∀ p ∈ m, p.1 ≠ k) : jsMapSet m k () = m ++ [(k, ())] := by
  have hany : m.any (fun p => p.1 == k) = false := by
    rw [List.any_eq_false]
    intro p hp
    simpa using h p hp
  simp [jsMapSet, hany]

/-- Oldest-first eviction in `_addToCache`: after inserting a duplicate-free
key sequence into an initially empty track cache, the cache holds exactly
the last `maxCacheSize` keys, in insertion order. -/
theorem trackCacheAfter_eq_evictWindow (ks : List ℕ) (hnd : ks.Nodup) :
    trackCacheAfter ks = evictWindow ks := by
  have hM : maxCacheSize = 30 := rfl
  induction ks using List.reverseRecOn with
  | nil => rfl
  | append_singleton ks k ih =>
    have hnd0 := List.nodup_append.mp hnd
    have hkns : k ∉ ks := fun hk => hnd0.2.2 hk (List.mem_singleton_self k)
    have hfold : trackCacheAfter (ks ++ [k]) = addToCache (trackCacheAfter ks) k () := by
      simp [trackCacheAfter, List.foldl_append]
    rw [hfold, ih hnd0.1]
    have hfresh : ∀ m : List (ℕ × Unit), (∀ p ∈ m, p.1 ∈ ks) →
        jsMapSet m k () = m ++ [(k, ())] :=
      fun m hm => jsMapSet_fresh (fun p hp he => hkns (he ▸ hm p hp))
    have hwl : (evictWindow ks).length = ks.length - (ks.length - maxCacheSize) := by
      simp [evictWindow]
    by_cases hsize : maxCacheSize ≤ ks.length
    · have hcap : (evictWindow ks).length ≥ maxCacheSize := by omega
      have hdrop1 : (evictWindow ks).drop 1 =
          (ks.drop (ks.length - maxCacheSize + 1)).map (fun k => (k, ())) := by
        simp only [evictWindow, ← List.map_drop, List.drop_drop]
      rw [addToCache]
      simp only [ge_iff_le, if_pos hcap]
      rw [hdrop1, hfresh _ (fun p hp => by
        rcases List.mem_map.mp hp with ⟨k', hk', rfl⟩
        exact List.mem_of_mem_drop hk')]
      show _ = ((ks ++ [k]).drop ((ks ++ [k]).length - maxCacheSize)).map (fun k => (k, ()))
      have hlen2 : (ks ++ [k]).length - maxCacheSize = ks.length + 1 - maxCacheSize := by
        simp
      rw [hlen2, List.drop_append_of_le_length (by omega), List.map_append]
      congr 3
      omega
    · have hcap : ¬ (evictWindow ks).length ≥ maxCacheSize := by omega
      rw [addToCache]
      simp only [ge_iff_le, if_neg hcap]
      rw [hfresh _ (fun p hp => evictWindow_keys_mem hp)]
      show _ = ((ks ++ [k]).drop ((ks ++ [k]).length - maxCacheSize)).map (fun k => (k, ()))
      have h1 : ks.length - maxCacheSize = 0 := by omega
      have h2 : (ks ++ [k]).length - maxCacheSize = 0 := by simp; omega
      rw [h2]
      simp [evictWindow, h1]

/-- The analysis cache never evicts: inserting duplicate-free keys just
accumulates them in insertion order. -/
theorem analysisCacheAfter_eq_map (ks : List ℕ) (hnd : ks.Nodup) :
    analysisCacheAfter ks = ks.map (fun k => (k, ())) := by
  induction ks using List.reverseRecOn with
  | nil => rfl
  | append_singleton ks k ih =>
    have hnd0 := List.nodup_append.mp hnd
    have hkns : k ∉ ks := fun hk => hnd0.2.2 hk (List.mem_singleton_self k)
    have hfold : analysisCacheAfter (ks ++ [k]) =
        getTrackAnalysisCacheStep (analysisCacheAfter ks) k () := by
      simp [analysisCacheAfter, List.foldl_append]
    rw [hfold, ih hnd0.1, getTrackAnalysisCacheStep]
    have hfr : ∀ p ∈ ks.map (fun k => (k, ())), p.1 ≠ k := by
      intro p hp he
      rcases List.mem_map.mp hp with ⟨k', hk', rfl⟩
      exact hkns (he ▸ hk')
    have hany : (ks.map (fun k => (k, ()))).any (fun p => p.1 == k) = false := by
      rw [List.any_eq_false]
      intro p hp
      simpa using hfr p hp
    rw [if_neg (by simp [hany]), jsMapSet_fresh hfr]
    simp

/-- Claim C5 (counterexample): the analysis-result cache
(`AutoMixEngine.analysisCache`, written by `getTrackAnalysis`) performs no
eviction at all: inserting `analyzerMaxCacheSize + 5 = 55` distinct track
ids leaves 55 entries — not the claimed `maxCacheSize` — and the
earliest-inserted key 0 is still present. -/
theorem analysis_cache_unbounded :
    (analysisCacheAfter (List.range (analyzerMaxCacheSize + 5))).length =
      analyzerMaxCacheSize + 5 ∧
    (analysisCacheAfter (List.range (analyzerMaxCacheSize + 5))).length ≠
      analyzerMaxCacheSize ∧
    (analysisCacheAfter (List.range (analyzerMaxCacheSize + 5))).any
      (fun p => p.1 == 0) = true := by
  have h := analysisCacheAfter_eq_map (List.range (analyzerMaxCacheSize + 5))
    (List.nodup_range _)
  rw [h]
  refine ⟨by simp, by simp [analyzerMaxCacheSize], ?_⟩
  rw [List.any_eq_true]
  refine ⟨(0, ()), List.mem_map.mpr ⟨0, ?_, rfl⟩, by simp⟩
  simp [analyzerMaxCacheSize]

/-- Claim C5 (amended theorem): the loaded-track cache
(`AutoMixEngineHowler._addToCache`, cap 30) is bounded with oldest-first
eviction — inserting `maxCacheSize + 5` distinct ids into an empty cache
leaves exactly `maxCacheSize` entries with the 5 earliest-inserted ids
absent — but the analysis-result cache of `AutoMixEngine.getTrackAnalysis`
has no bound: every distinct insertion is retained. -/
theorem cache_bound_oldest_first_eviction :
    (∀ ks : List ℕ, ks.Nodup → ks.length = maxCacheSize + 5 →
      (trackCacheAfter ks).length = maxCacheSize ∧
      ∀ k ∈ ks.take 5, (trackCacheAfter ks).any (fun p => p.1 == k) = false) ∧
    (∀ ks : List ℕ, ks.Nodup → (analysisCacheAfter ks).length = ks.length) := by
  have hM : maxCacheSize = 30 := rfl
  constructor
  · intro ks hnd hlen
    rw [trackCacheAfter_eq_evictWindow ks hnd]
    constructor
    · simp only [evictWindow, List.length_map, List.length_drop]
      omega
    · intro k hk
      rw [List.any_eq_false]
      intro p hp
      simp only [beq_iff_eq]
      intro he
      have hkd : p.1 ∈ ks.drop (ks.length - maxCacheSize) := by
        rcases List.mem_map.mp hp with ⟨k', hk', rfl⟩
        exact hk'
      have hdisj : List.Disjoint (ks.take 5) (ks.drop (ks.length - maxCacheSize)) :=
        List.disjoint_take_drop hnd (by omega)
      exact hdisj (by rw [he]; exact hk) hkd
  · intro ks hnd
    rw [analysisCacheAfter_eq_map ks hnd]
    simp

/-- Claim C5 (witness): the amended cache theorem applied to the concrete
id sequence `0, …, 34`. -/
theorem cache_bound_oldest_first_eviction_witness :
    (trackCacheAfter (List.range 35)).length = maxCacheSize ∧
    (∀ k ∈ (List.range 35).take 5,
      (trackCacheAfter (List.range 35)).any (fun p => p.1 == k) = false) ∧
    (analysisCacheAfter (List.range 35)).length = (List.range 35).length :=
  ⟨(cache_bound_oldest_first_eviction.1 (List.range 35) (List.nodup_range _)
      (by simp [maxCacheSize])).1,
   (cache_bound_oldest_first_eviction.1 (List.range 35) (List.nodup_range _)
      (by simp [maxCacheSize])).2,
   cache_bound_oldest_first_eviction.2 (List.range 35) (List.nodup_range _)⟩

theorem list_foldl_inv {α β : Type} (P : α → Prop) (f : α → β → α)
    (hf : ∀ a b, P a → P (f a b)) :
    ∀ (l : List β) (a : α), P a → P (l.foldl f a)
  | [], _, h => h
  | b :: l, a, h => list_foldl_inv P f hf l (f a b) (hf a b h)

theorem detectBeatsStep_inv (energyEnvelope : List RmsFrame)
    (st : ℚ × List ℚ) (i : ℕ) (h : BeatsChainInv st) :
    BeatsChainInv (detectBeatsStep energyEnvelope st i) := by
  unfold detectBeatsStep
  dsimp only
  split_ifs with h1 h2 h3
  · refine ⟨?_, ?_⟩
    · refine List.chain'_append.mpr ⟨h.1, List.chain'_singleton _, ?_⟩
      intro x hx y hy
      rw [h.2 x hx]
      simp only [List.head?_cons, Option.mem_def, Option.some.injEq] at hy
      rw [← hy]
      linarith
    · intro x hx
      rw [List.getLast?_concat] at hx
      simp only [Option.mem_def, Option.some.injEq] at hx
      exact hx.symm
  · exact h
  · exact h
  · exact h

/-- Claim C4 (counterexample): the claim requires every detected beat
sequence to have ≥ 0.3 s spacing, but `_detectBeatsAdvanced` has no
minimum-interval check: with 50 ms envelope hops and flux
`[0,10,0,10,0,10,0]` it emits beats at 0.05 s, 0.15 s, 0.25 s — 0.1 s
apart. -/
theorem advanced_beats_below_min_interval :
    (detectBeatsAdvanced
        [⟨0, 0, 0⟩, ⟨1/20, 0, 10⟩, ⟨2/20, 0, 0⟩, ⟨3/20, 0, 10⟩, ⟨4/20, 0, 0⟩,
         ⟨5/20, 0, 10⟩, ⟨6/20, 0, 0⟩]
        [0, 10, 0, 10, 0, 10, 0]).map (fun b => b.time) = [1/20, 3/20, 5/20] ∧
    ¬ ((3/20 : ℚ) - 1/20 ≥ minBeatInterval) := by
  constructor
  · norm_num [detectBeatsAdvanced, calculateAdaptiveThreshold, List.range_succ,
      List.getD]
  · norm_num [minBeatInterval]

/-- Claim C4 (amended theorem): beat times are strictly increasing in both
detectors — for `_detectBeatsAdvanced` whenever the envelope times are
strictly increasing in the index (as `analyze` produces them) — and
`detectBeats` additionally guarantees consecutive spacing of at least
`minBeatInterval = 0.3 s`; `_detectBeatsAdvanced` enforces no minimum
interval (see the counterexample: 0.1 s spacing). -/
theorem beat_monotonicity_and_spacing :
    (∀ (energyEnvelope : List EnergyFrame) (fluxValues : List ℚ),
      fluxValues.length ≤ energyEnvelope.length →
      (∀ j, j < energyEnvelope.length → ∀ i, i < j →
        (energyEnvelope.getD i ⟨0, 0, 0⟩).time <
          (energyEnvelope.getD j ⟨0, 0, 0⟩).time) →
      List.Pairwise (fun b1 b2 => b1.time < b2.time)
        (detectBeatsAdvanced energyEnvelope fluxValues)) ∧
    (∀ (energyEnvelope : List RmsFrame) (framesPerSecond : ℚ),
      List.Chain' (fun t1 t2 => t1 + minBeatInterval ≤ t2)
        (detectBeats energyEnvelope framesPerSecond)) := by
  constructor
  · intro energyEnvelope fluxValues hlen hmono
    unfold detectBeatsAdvanced
    rw [List.pairwise_map]
    refine List.Pairwise.imp_of_mem ?_
      ((List.pairwise_lt_range fluxValues.length).filter _)
    intro a b ha hb hab
    have hb' : b + 1 < fluxValues.length := by
      rcases List.mem_filter.mp hb with ⟨_, hcond⟩
      rw [decide_eq_true_eq] at hcond
      exact hcond.2.1
    exact hmono b (by omega) a hab
  · intro energyEnvelope framesPerSecond
    have h := list_foldl_inv BeatsChainInv (detectBeatsStep energyEnvelope)
      (detectBeatsStep_inv energyEnvelope)
      ((List.range energyEnvelope.length).filter fun i =>
        decide (2 ≤ i ∧ i + 2 < energyEnvelope.length))
      (0, []) ⟨List.chain'_nil, by simp⟩
    exact h.1

/-- Claim C4 (witness): the amended theorem applied to a concrete envelope
and flux sequence, and to a concrete RMS envelope. -/
theorem beat_monotonicity_and_spacing_witness :
    List.Pairwise (fun b1 b2 => b1.time < b2.time)
      (detectBeatsAdvanced [⟨0, 1, 0⟩, ⟨1, 2, 0⟩, ⟨2, 1, 0⟩] [0, 5, 0]) ∧
    List.Chain' (fun t1 t2 => t1 + minBeatInterval ≤ t2)
      (detectBeats [⟨0, 1⟩, ⟨1, 2⟩, ⟨2, 1⟩] 5) :=
  ⟨beat_monotonicity_and_spacing.1 [⟨0, 1, 0⟩, ⟨1, 2, 0⟩, ⟨2, 1, 0⟩] [0, 5, 0]
      (by norm_num) (by decide),
   beat_monotonicity_and_spacing.2 [⟨0, 1⟩, ⟨1, 2⟩, ⟨2, 1⟩] 5⟩

/-- On an exactly 0.5 s-spaced beat list every inter-beat interval is 0.5. -/
theorem intervalsAux_of_chain : ∀ (l : List ℚ),
    List.Chain' (fun a b => b - a = 1/2) l →
    intervalsAux l = List.replicate (l.length - 1) (1/2)
  | [], _ => rfl
  | [_], _ => rfl
  | a :: b :: rest, h => by
    have h1 : b - a = 1/2 := (List.chain'_cons.mp h).1
    have h2 := (List.chain'_cons.mp h).2
    show (b - a) :: intervalsAux (b :: rest) = _
    rw [h1, intervalsAux_of_chain (b :: rest) h2]
    simp [List.replicate_succ]

theorem histfold_replicate (r : ℚ) : ∀ (m c : ℕ),
    (List.replicate m r).foldl (fun h y => histAdd h (round01 y)) [(round01 r, c)] =
      [(round01 r, c + m)]
  | 0, c => by simp
  | m + 1, c => by
    rw [List.replicate_succ, List.foldl_cons]
    have hstep : histAdd [(round01 r, c)] (round01 r) = [(round01 r, c + 1)] := by
      simp [histAdd]
    rw [hstep, histfold_replicate r m (c + 1)]
    have : c + 1 + m = c + (m + 1) := by omega
    rw [this]

theorem histfold_replicate_from_nil (r : ℚ) (m : ℕ) (hm : 1 ≤ m) :
    (List.replicate m r).foldl (fun h y => histAdd h (round01 y)) [] =
      [(round01 r, m)] := by
  obtain ⟨m', rfl⟩ : ∃ m', m = m' + 1 := ⟨m - 1, by omega⟩
  rw [List.replicate_succ, List.foldl_cons]
  have hstep : histAdd [] (round01 r) = [(round01 r, 1)] := by simp [histAdd]
  rw [hstep, histfold_replicate r m' 1, Nat.add_comm]

theorem round01_half : round01 (1/2) = 1/2 := by
  have h5 : jsRound ((1/2 : ℚ) * 10) = 5 := by
    unfold jsRound
    rw [show ((1/2 : ℚ) * 10 + 1/2) = 11/2 by norm_num]
    rw [Int.floor_eq_iff]
    constructor <;> norm_num
  rw [round01, h5]
  norm_num

/-- Claim C7 (theorem): `_calculateTempo` returns 0 for fewer than two
beats; for any beat sequence of at least 8 beats at exactly 0.5 s spacing
it computes the inter-beat intervals, rounds each to 0.1 s, takes the
histogram mode, and returns `60 / 0.5 = 120` BPM exactly (hence within 1
of 120). -/
theorem tempo_from_interval_histogram :
    (∀ beats : List Beat, beats.length < 2 → calculateTempo beats = 0) ∧
    (∀ beats : List Beat, 8 ≤ beats.length →
      List.Chain' (fun b1 b2 => b2.time - b1.time = 1/2) beats →
      calculateTempo beats = 120) := by
  constructor
  · intro beats hlen
    unfold calculateTempo
    rw [if_pos hlen]
  · intro beats hlen hchain
    unfold calculateTempo
    rw [if_neg (by omega)]
    have htimes : List.Chain' (fun a b => b - a = 1/2) (beats.map (fun b => b.time)) := by
      rw [List.chain'_map]
      exact hchain
    dsimp only
    rw [intervalsAux_of_chain _ htimes, List.length_map,
      histfold_replicate_from_nil (1/2) (beats.length - 1) (by omega),
      round01_half, List.foldl_cons, List.foldl_nil]
    rw [if_pos (by omega : beats.length - 1 > 0)]
    norm_num

/-- Claim C7 (witness): the tempo theorem applied to the empty beat list
and to 8 concrete beats spaced exactly 0.5 s apart. -/
theorem tempo_from_interval_histogram_witness :
    calculateTempo [] = 0 ∧
    calculateTempo
      [⟨0, 0, 0⟩, ⟨1/2, 0, 0⟩, ⟨1, 0, 0⟩, ⟨3/2, 0, 0⟩, ⟨2, 0, 0⟩, ⟨5/2, 0, 0⟩,
       ⟨3, 0, 0⟩, ⟨7/2, 0, 0⟩] = 120 :=
  ⟨tempo_from_interval_histogram.1 [] (by norm_num),
   tempo_from_interval_histogram.2 _ (by norm_num)
     (by norm_num [List.chain'_cons, List.chain'_singleton])⟩

/-- Claim C8 (theorem): over normalized time `t ∈ [0, 1]` the outgoing
gain is `max(0.001, cos(tπ/2))` and the incoming gain is
`max(0.001, sin(tπ/2))`; at `t = 0` they are 1 and the 0.001 floor, at
`t = 1` they are the floor and 1, and over the whole interval the
outgoing curve is non-increasing and the incoming curve non-decreasing. -/
theorem crossfade_curve_boundaries_monotone :
    crossfadeCurrentValue 0 = 1 ∧ crossfadeNextValue 0 = 0.001 ∧
    crossfadeCurrentValue 1 = 0.001 ∧ crossfadeNextValue 1 = 1 ∧
    (∀ t1 t2 : ℝ, 0 ≤ t1 → t1 ≤ t2 → t2 ≤ 1 →
      crossfadeCurrentValue t2 ≤ crossfadeCurrentValue t1 ∧
      crossfadeNextValue t1 ≤ crossfadeNextValue t2) := by
  have hpi := Real.pi_pos
  refine ⟨?_, ?_, ?_, ?_, ?_⟩
  · rw [crossfadeCurrentValue, crossfadeFadeOut]
    norm_num
  · rw [crossfadeNextValue, crossfadeFadeIn]
    norm_num
  · rw [crossfadeCurrentValue, crossfadeFadeOut, one_mul, Real.cos_pi_div_two]
    norm_num
  · rw [crossfadeNextValue, crossfadeFadeIn, one_mul, Real.sin_pi_div_two]
    norm_num
  · intro t1 t2 h0 h12 h21
    have hmul : t1 * Real.pi / 2 ≤ t2 * Real.pi / 2 := by nlinarith
    have ht1lo : 0 ≤ t1 * Real.pi / 2 := by positivity
    have ht2hi : t2 * Real.pi / 2 ≤ Real.pi / 2 := by nlinarith
    constructor
    · rw [crossfadeCurrentValue, crossfadeCurrentValue, crossfadeFadeOut,
        crossfadeFadeOut]
      exact max_le_max le_rfl
        (Real.cos_le_cos_of_nonneg_of_le_pi ht1lo (by nlinarith) hmul)
    · rw [crossfadeNextValue, crossfadeNextValue, crossfadeFadeIn, crossfadeFadeIn]
      exact max_le_max le_rfl
        (Real.sin_le_sin_of_le_of_le_pi_div_two (by nlinarith) ht2hi hmul)

/-- Claim C8 (witness): the curve theorem applied at the endpoints
`t1 = 0`, `t2 = 1`. -/
theorem crossfade_curve_boundaries_monotone_witness :
    crossfadeCurrentValue 1 ≤ crossfadeCurrentValue 0 ∧
    crossfadeNextValue 0 ≤ crossfadeNextValue 1 :=
  crossfade_curve_boundaries_monotone.2.2.2.2 0 1 (by norm_num) (by norm_num)
    (by norm_num)

theorem list_foldl_inv_mem {α β : Type} (P : α → Prop) (f : α → β → α) :
    ∀ (l : List β) (a : α), P a → (∀ a' b, b ∈ l → P a' → P (f a' b)) →
      P (l.foldl f a)
  | [], _, h, _ => h
  | b :: l, a, h, hf => by
    rw [List.foldl_cons]
    exact list_foldl_inv_mem P f l (f a b) (hf a b (List.mem_cons_self b l) h)
      (fun a' b' hb' => hf a' b' (List.mem_cons_of_mem b hb'))

theorem list_foldl_fixed {α β : Type} (f : α → β → α) :
    ∀ (l : List β) (a : α), (∀ a' b, b ∈ l → f a' b = a') → l.foldl f a = a
  | [], _, _ => rfl
  | b :: l, a, h => by
    rw [List.foldl_cons, h a b (List.mem_cons_self b l)]
    exact list_foldl_fixed f l a (fun a' b' hb' => h a' b' (List.mem_cons_of_mem b hb'))

/-- The flux of a spectrum against itself is 0: no difference is positive. -/
theorem spectralFlux_self (s : List ℚ) : spectralFlux s s = 0 := by
  unfold spectralFlux
  apply list_foldl_fixed
  intro a j hj
  have hjlt : j < s.length := List.mem_range.mp hj
  obtain ⟨v, hsome⟩ : ∃ v, s[j]? = some v := ⟨_, List.getElem?_eq_getElem hjlt⟩
  rw [hsome]
  have hgd : s.getD j 0 = v := by
    rw [List.getD_eq_getElem?_getD, hsome]
    rfl
  rw [hgd]
  simp

/-- All-zero flux values defeat the local-peak test, so
`_detectBeatsAdvanced` finds no beats. -/
theorem detectBeatsAdvanced_flux_zero (energyEnvelope : List EnergyFrame)
    (fluxValues : List ℚ) (hz : ∀ x ∈ fluxValues, x = 0) :
    detectBeatsAdvanced energyEnvelope fluxValues = [] := by
  have hgd : ∀ j, fluxValues.getD j 0 = 0 := by
    intro j
    rw [List.getD_eq_getElem?_getD]
    cases hj : fluxValues[j]? with
    | none => rfl
    | some v => exact hz v (List.getElem?_mem hj)
  unfold detectBeatsAdvanced
  dsimp only
  rw [List.filter_eq_nil_iff.mpr ?_, List.map_nil]
  intro i _
  rw [decide_eq_true_eq]
  rintro ⟨-, -, -, h4, -⟩
  rw [hgd i, hgd (i - 1)] at h4
  exact lt_irrefl 0 h4

/-- Claim C9 (theorem): analyzing a zero-length or all-silent buffer never
fails (the embedding is total) and yields an empty beat list and tempo 0,
for every spectral transform and every sample rate of at least 20 samples
per second (below that the 50 ms hop floors to zero and the source's
loop would not advance). -/
theorem silent_analysis_no_beats_zero_tempo (fft : List ℚ → List ℚ)
    (channelData : List ℚ) (sampleRate : ℕ) (hsr : 20 ≤ sampleRate)
    (hz : ∀ x ∈ channelData, x = 0) :
    analyzerAnalyze fft channelData sampleRate = ([], 0) := by
  have hflux : ∀ x ∈ (analyzeEnvelopeFlux fft channelData sampleRate).2, x = 0 := by
    unfold analyzeEnvelopeFlux
    dsimp only
    have hinv := list_foldl_inv_mem
      (fun st : Option (List ℚ) × List EnergyFrame × List ℚ =>
        (st.1 = none ∨
          st.1 = some (fft (List.replicate (analyzeWindowSize sampleRate) 0))) ∧
        ∀ x ∈ st.2.2, x = 0)
      (analyzeStep fft channelData sampleRate)
      (analyzeWindowStarts channelData.length (analyzeWindowSize sampleRate)
        (analyzeHopSize sampleRate) (sampleRate * 30))
      (none, [], []) ⟨Or.inl rfl, by simp⟩ ?_
    · exact hinv.2
    · intro st i hi hst
      have hiws : i + analyzeWindowSize sampleRate < channelData.length := by
        have := (List.mem_filter.mp hi).2
        rw [decide_eq_true_eq] at this
        exact this.1
      have hwin : (channelData.drop i).take (analyzeWindowSize sampleRate) =
          List.replicate (analyzeWindowSize sampleRate) 0 := by
        rw [List.eq_replicate_iff]
        refine ⟨?_, ?_⟩
        · rw [List.length_take, List.length_drop]
          omega
        · intro b hb
          exact hz b (List.mem_of_mem_drop (List.mem_of_mem_take hb))
      unfold analyzeStep
      rw [hwin]
      dsimp only
      refine ⟨Or.inr rfl, ?_⟩
      intro x hx
      rcases List.mem_append.mp hx with hx | hx
      · exact hst.2 x hx
      · have hx1 : x = match st.1 with
            | some previousSpectrum =>
              spectralFlux (fft (List.replicate (analyzeWindowSize sampleRate) 0))
                previousSpectrum
            | none => 0 := by simpa using hx
        rcases hst.1 with hprev | hprev <;> rw [hprev] at hx1
        · simpa using hx1
        · rw [hx1]
          exact spectralFlux_self _
  have hbeats : detectBeatsAdvanced (analyzeEnvelopeFlux fft channelData sampleRate).1
      (analyzeEnvelopeFlux fft channelData sampleRate).2 = [] :=
    detectBeatsAdvanced_flux_zero _ _ hflux
  unfold analyzerAnalyze
  dsimp only
  rw [hbeats]
  rfl

/-- Claim C9 (witness): the silent-analysis theorem applied to the
identity transform, the empty buffer, and sample rate 20. -/
theorem silent_analysis_no_beats_zero_tempo_witness :
    analyzerAnalyze (fun w => w) [] 20 = ([], 0) :=
  silent_analysis_no_beats_zero_tempo (fun w => w) [] 20 (by norm_num)
    (by intro x hx; cases hx)
